import Mathlib

/-!
Verification of the search-and-ranking core of the particle module
(`final_version/particle_module.py`).

Modelling conventions (shallow embedding):
* Python strings are `List Char`; Python string comparison is code-point
  lexicographic (`lexLe` below).
* Python floats are exact rationals (`ℚ`); the literals 0.60, 0.25, 0.15,
  0.20 become 3/5, 1/4, 3/20, 1/5.
* Python ints are `Int`; Python `//` (floor division) is `Int.fdiv`.
* SQLite is modelled as a list of rows.  `ORDER BY ... DESC` is modelled by a
  stable insertion sort with the corresponding descending relation; SQL
  `LIKE '%q%'` is modelled as substring containment (the engine-default ASCII
  case folding of SQLite `LIKE` is abstracted away); the FTS5 index is an
  external engine and is modelled as unavailable, so `search_particles`
  exercises the `_like_search` fallback, exactly the path the claims are
  about.
* `unicodedata.category(ch) == "Cf"` and Python whitespace are modelled by
  explicit code-point tables (`isCfChar`, `isPySpace`); Python `str.lower()`
  is modelled by ASCII case folding.
-/

namespace Particle

/-- ASCII letter, the regex class `[A-Za-z]`. -/
def isAsciiLetter (c : Char) : Bool :=
  ('A' ≤ c && c ≤ 'Z') || ('a' ≤ c && c ≤ 'z')

/-- ASCII digit, the regex class `\d` restricted to ASCII as in the source. -/
def isAsciiDigit (c : Char) : Bool :=
  '0' ≤ c && c ≤ '9'

/-- Characters allowed after the leading letter of a tag: `[A-Za-z0-9_-]`. -/
def isTagChar (c : Char) : Bool :=
  isAsciiLetter c || isAsciiDigit c || c = '_' || c = '-'

/-- Hexadecimal digit, the regex class `[0-9a-fA-F]`. -/
def isHexChar (c : Char) : Bool :=
  isAsciiDigit c || ('a' ≤ c && c ≤ 'f') || ('A' ≤ c && c ≤ 'F')

/-- Word character for the regex `\b` boundary, modelled as ASCII `\w`. -/
def isWordChar (c : Char) : Bool :=
  isAsciiLetter c || isAsciiDigit c || c = '_'

/-- Characters of the token alphabet of `tokenize`: `[a-z0-9_]`. -/
def isTokChar (c : Char) : Bool :=
  ('a' ≤ c && c ≤ 'z') || isAsciiDigit c || c = '_'

/-- Python whitespace (`\s` in Unicode mode, also used by `str.strip`). -/
def isPySpace (c : Char) : Bool :=
  let n := c.toNat
  (9 ≤ n && n ≤ 13) || n = 32 || (28 ≤ n && n ≤ 31) || n = 0x85 || n = 0xA0 ||
  n = 0x1680 || (0x2000 ≤ n && n ≤ 0x200A) || n = 0x2028 || n = 0x2029 ||
  n = 0x202F || n = 0x205F || n = 0x3000

/-- Unicode general category Cf (format characters), removed by
`normalize_query`.  Table of the Cf code points. -/
def isCfChar (c : Char) : Bool :=
  let n := c.toNat
  n = 0xAD || (0x600 ≤ n && n ≤ 0x605) || n = 0x61C || n = 0x6DD || n = 0x70F ||
  (0x890 ≤ n && n ≤ 0x891) || n = 0x8E2 || n = 0x180E ||
  (0x200B ≤ n && n ≤ 0x200F) || (0x202A ≤ n && n ≤ 0x202E) ||
  (0x2060 ≤ n && n ≤ 0x2064) || (0x2066 ≤ n && n ≤ 0x206F) || n = 0xFEFF ||
  (0xFFF9 ≤ n && n ≤ 0xFFFB) || n = 0x110BD || n = 0x110CD ||
  (0x13430 ≤ n && n ≤ 0x13438) || (0x1BCA0 ≤ n && n ≤ 0x1BCA3) ||
  (0x1D173 ≤ n && n ≤ 0x1D17A) || n = 0xE0001 || (0xE0020 ≤ n && n ≤ 0xE007F)

/-- ASCII case folding, modelling Python `str.lower()`. -/
def lowerChar (c : Char) : Char :=
  if 'A' ≤ c ∧ c ≤ 'Z' then Char.ofNat (c.toNat + 32) else c

/-- Python `str.lower()` over a whole string. -/
def pyLower (l : List Char) : List Char :=
  l.map lowerChar

/-- Python `str.strip()`: remove leading and trailing whitespace. -/
def pyStrip (l : List Char) : List Char :=
  ((l.dropWhile isPySpace).reverse.dropWhile isPySpace).reverse

/-- Code-point lexicographic order on strings, as Python `str` comparison. -/
def lexLe : List Char → List Char → Bool
  | [], _ => true
  | _ :: _, [] => false
  | x :: xs, y :: ys => if x = y then lexLe xs ys else decide (x < y)

/-- Substring containment: models SQL `LIKE '%needle%'`. -/
def listContains (hay needle : List Char) : Bool :=
  match hay with
  | [] => needle.isEmpty
  | _ :: t => needle.isPrefixOf hay || listContains t needle

/-- Join string pieces with a separator (helper for `tagsJson`). -/
def joinSep : List (List Char) → List Char → List Char
  | [], _ => []
  | [x], _ => x
  | x :: y :: xs, sep => x ++ sep ++ joinSep (y :: xs) sep

/-- Serialized form of the tags column: models `json.dumps` on a list of tag
strings (tags match `[A-Za-z][A-Za-z0-9_-]*`, so no JSON escaping arises). -/
def tagsJson (ts : List (List Char)) : List Char :=
  '[' :: joinSep (ts.map (fun t => '"' :: (t ++ ['"']))) (", ".data) ++ [']']

/-- Collapse runs of whitespace to a single space: models
`re.sub(r"\s+", " ", s)`.  The flag records whether the previous character
was part of a whitespace run. -/
def collapseWsAux : Bool → List Char → List Char
  | _, [] => []
  | prevSpace, c :: cs =>
    if isPySpace c then
      if prevSpace then collapseWsAux true cs
      else ' ' :: collapseWsAux true cs
    else c :: collapseWsAux false cs

/-- Source `normalize_query`: drop Unicode Cf characters, collapse whitespace
runs to single spaces, strip. -/
def normalize_query (q : List Char) : List Char :=
  pyStrip (collapseWsAux false (q.filter (fun c => !isCfChar c)))

/-- Run-splitting scanner: splits a string into the maximal runs of
characters satisfying `p`, discarding the separators.  The accumulator holds
the reversed characters of the run being read.  This is the effect of
`re.split` on the complement class followed by dropping empty pieces. -/
def splitRunsAux (p : Char → Bool) : Option (List Char) → List Char → List (List Char)
  | none, [] => []
  | some acc, [] => [acc.reverse]
  | none, c :: rest =>
    if p c then splitRunsAux p (some [c]) rest else splitRunsAux p none rest
  | some acc, c :: rest =>
    if p c then splitRunsAux p (some (c :: acc)) rest
    else acc.reverse :: splitRunsAux p none rest

/-- Core of `tokenize`: maximal runs of `[a-z0-9_]` in an already lowercased
string; models `re.split(r"[^a-z0-9_]+", t)` plus the non-empty filter. -/
def tokenizeCore (l : List Char) : List (List Char) :=
  splitRunsAux isTokChar none l

/-- Source `tokenize`: lowercase then split into alphanumeric/underscore
tokens. -/
def tokenize (t : List Char) : List (List Char) :=
  tokenizeCore (pyLower t)

/-- Scanner state for the `#`-prefixed token regexes (`#([A-Za-z][A-Za-z0-9_-]*)`
and `#(\d+)`): outside any candidate, just after a `#`, or inside a captured
token (characters collected in reverse). -/
inductive HashScan where
  | scan : HashScan
  | afterHash : HashScan
  | inTok : List Char → HashScan

/-- Scanner for a regex `#(start…cont*)` via `re.findall`: `start`/`cont`
classify the first and the following characters of the captured group.  The
regex has no backtracking choice (the classes are matched greedily), so
`re.findall` is exactly this left-to-right scan: on failure the scan advances
one character, on success it resumes right after the match — in both cases a
`#` at the resume position starts a new candidate. -/
def findHashToks (start cont : Char → Bool) : HashScan → List Char → List (List Char)
  | .scan, [] => []
  | .afterHash, [] => []
  | .inTok acc, [] => [acc.reverse]
  | .scan, c :: rest =>
    if c = '#' then findHashToks start cont .afterHash rest
    else findHashToks start cont .scan rest
  | .afterHash, c :: rest =>
    if start c then findHashToks start cont (.inTok [c]) rest
    else if c = '#' then findHashToks start cont .afterHash rest
    else findHashToks start cont .scan rest
  | .inTok acc, c :: rest =>
    if cont c then findHashToks start cont (.inTok (c :: acc)) rest
    else if c = '#' then acc.reverse :: findHashToks start cont .afterHash rest
    else acc.reverse :: findHashToks start cont .scan rest

/-- Captured groups of `re.findall(r"#([A-Za-z][A-Za-z0-9_-]*)", body)`. -/
def findTags (l : List Char) : List (List Char) :=
  findHashToks isAsciiLetter isTagChar .scan l

/-- Captured groups of `re.findall(r"#(\d+)", body)`. -/
def findNumRefs (l : List Char) : List (List Char) :=
  findHashToks isAsciiDigit isAsciiDigit .scan l

/-- Shape test for a UUID: 36 characters, 8-4-4-4-12 hex groups separated by
dashes at positions 8, 13, 18, 23. -/
def uuidShape (l : List Char) : Bool :=
  l.length = 36 &&
  (List.range 36).all (fun i =>
    if i = 8 ∨ i = 13 ∨ i = 18 ∨ i = 23 then l.getD i ' ' = '-'
    else isHexChar (l.getD i ' '))

/-- Scanner for the UUID regex
`\b[0-9a-fA-F]{8}-(…){4}-(…){4}-(…){4}-(…){12}\b` via `re.findall`.
`prevW` records whether the previous character is a word character (for the
leading `\b`; the first matched character is hex, hence a word character, so
the boundary holds exactly when `prevW` is false).  `skip` counts characters
of an already accepted match still to pass over, since `re.findall` resumes
scanning right after each match.  The hex groups have fixed width, so the
match at a position is fully determined and a failing trailing `\b` fails the
whole position. -/
def findUUIDsAux : Bool → Nat → List Char → List (List Char)
  | _, _, [] => []
  | _, n + 1, c :: rest => findUUIDsAux (isWordChar c) n rest
  | prevW, 0, c :: rest =>
    if !prevW && uuidShape ((c :: rest).take 36) &&
        (match (c :: rest).drop 36 with
         | [] => true
         | d :: _ => !isWordChar d) then
      (c :: rest).take 36 :: findUUIDsAux (isWordChar c) 35 rest
    else findUUIDsAux (isWordChar c) 0 rest

/-- Full matches of `re.findall` for the UUID pattern over a whole string. -/
def findUUIDs (l : List Char) : List (List Char) :=
  findUUIDsAux false 0 l

/-- Ascending string order as a `Prop` relation for sorting. -/
def strAsc (a b : List Char) : Prop := lexLe a b = true

instance : DecidableRel strAsc := fun a b => decEq (lexLe a b) true

/-- Python `sorted(set(xs))`: deduplicate, then sort ascending.  A sorted
duplicate-free list is determined by its members, so the model is independent
of Python's set iteration order. -/
def sortDedup (l : List (List Char)) : List (List Char) :=
  List.insertionSort strAsc l.dedup

/-- Source `extract_tags_and_references`: tags from the tag regex, references
from the UUID regex, falling back to numeric `#<digits>` references when no
UUID occurs (`uuids or numrefs`); both outputs sorted and deduplicated. -/
def extract_tags_and_references (body : List Char) : List (List Char) × List (List Char) :=
  let tags := sortDedup (findTags body)
  let uuids := findUUIDs body
  let numrefs := findNumRefs body
  let refs := sortDedup (if uuids = [] then numrefs else uuids)
  (tags, refs)

/-- Reference (textbook) edit-distance recurrence used to specify the
dynamic-programming loop of the source: the Wagner-Fischer recurrence with
the insert/delete/substitute minimum in the same order as the source's inner
loop. -/
def levRec : List Char → List Char → Nat
  | [], ys => ys.length
  | _ :: xs, [] => xs.length + 1
  | x :: xs, y :: ys =>
    min (min (levRec xs (y :: ys) + 1) (levRec (x :: xs) ys + 1))
        (levRec xs ys + (if x = y then 0 else 1))
termination_by a b => (a.length, b.length)
decreasing_by all_goals (simp; omega)

/-- Edit distance between reversed lists; the DP rows of the source compute
distances between prefixes, which peel characters from the end, so the
recurrence is naturally phrased on reversals. -/
def levRev (x y : List Char) : Nat :=
  levRec x.reverse y.reverse

/-- Inner loop of the source `levenshtein`: given the current character `bj`
of `b`, the remaining characters of `a`, the last value appended to the
current row (`curr[i-1]`), the diagonal value (`prev[i-1]`) and the rest of
the previous row (`prev[i..]`), produce the remaining cells of the current
row.  Cell formula from the source:
`min(curr[i-1]+1, prev[i]+1, prev[i-1] + (ai != bj))`. -/
def levCells (bj : Char) : List Char → Nat → Nat → List Nat → List Nat
  | [], _, _, _ => []
  | _ :: _, _, _, [] => []
  | ai :: arest, lastc, diag, pi :: prest =>
    let v := min (min (lastc + 1) (pi + 1)) (diag + (if ai = bj then 0 else 1))
    v :: levCells bj arest v pi prest

/-- One outer-loop iteration of the source `levenshtein`: `curr = [j]`
followed by the inner loop over `a`. -/
def levRow (bj : Char) (j : Nat) (a : List Char) (prev : List Nat) : List Nat :=
  match prev with
  | [] => [j]
  | p0 :: rest => j :: levCells bj a j p0 rest

/-- Outer loop of the source `levenshtein`: `for j, bj in enumerate(b, 1)`. -/
def levLoop (a : List Char) : List Char → Nat → List Nat → List Nat
  | [], _, prev => prev
  | bj :: brest, j, prev => levLoop a brest (j + 1) (levRow bj j a prev)

/-- The two-row dynamic program of the source `levenshtein` after its
short-circuits: `prev = list(range(len(a)+1))`, the loop over `b`, and the
final `prev[-1]`. -/
def levCore (a b : List Char) : Nat :=
  (levLoop a b 1 (List.range (a.length + 1))).getLastD 0

/-- Source `levenshtein`: equality, empty-string and swap short-circuits in
front of the two-row DP (the swap makes the first argument the shorter). -/
def levenshtein (a b : List Char) : Nat :=
  if a = b then 0
  else if a = [] then b.length
  else if b = [] then a.length
  else if b.length < a.length then levCore b a else levCore a b

/-- Source `norm_distance`: case-fold and trim both inputs; both empty gives
0.0, exactly one empty gives 1.0, otherwise normalized edit distance
`levenshtein(a,b) / max(len(a), len(b))`. -/
def norm_distance (a b : List Char) : ℚ :=
  let a' := pyLower (pyStrip a)
  let b' := pyLower (pyStrip b)
  if a' = [] ∧ b' = [] then 0
  else if a' = [] ∨ b' = [] then 1
  else (levenshtein a' b' : ℚ) / ((max a'.length b'.length : ℕ) : ℚ)

/-- Source `norm_sim`: `1.0 - norm_distance(a, b)`. -/
def norm_sim (a b : List Char) : ℚ :=
  1 - norm_distance a b

/-- Source `min_token_distance`: minimum `norm_distance` over the full cross
product of query tokens and text tokens, 1.0 when either list is empty. -/
def min_token_distance (query_tokens text_tokens : List (List Char)) : ℚ :=
  if query_tokens = [] ∨ text_tokens = [] then 1
  else query_tokens.foldl
    (fun best q => text_tokens.foldl (fun b t => min b (norm_distance q t)) best) 1

/-- Python `max(xs, default=d)`: the default when the list is empty, the
genuine maximum otherwise. -/
def listMax (d : ℚ) : List ℚ → ℚ
  | [] => d
  | x :: xs => xs.foldl max x

/-- Source `best_token_sim`: case-fold/trim both; zero when either is empty
or the text has no tokens; otherwise the best `norm_sim` of the query against
every single token and every adjacent space-joined token bigram of the
text. -/
def best_token_sim (query text : List Char) : ℚ :=
  let q := pyLower (pyStrip query)
  let t := pyLower (pyStrip text)
  if q = [] ∨ t = [] then 0
  else
    let toks := tokenize t
    if toks = [] then 0
    else
      let best1 := toks.foldl (fun acc tok => max acc (norm_sim q tok)) 0
      (toks.zip toks.tail).foldl
        (fun acc pr => max acc (norm_sim q (pr.1 ++ ' ' :: pr.2))) best1

/-- Database row of the `particles` table.  Structured fields stand for the
JSON-serialized columns (`tags`, `particle_references` are stored as
`json.dumps` of string lists; `tagsJson` recovers the column text where the
serialized form matters). -/
structure Row where
  id : List Char
  user_id : List Char
  date_created : List Char
  date_updated : List Char
  title : List Char
  body : List Char
  tags : List (List Char)
  particle_references : List (List Char)
deriving DecidableEq, Repr

/-- Per-candidate composite score of `fuzzy_search_particles`, exactly the
body of its scoring loop: title similarity (exact and token-wise), tag
similarity, body similarity over the first 1000 characters, and the near-typo
title bonus. -/
def fuzzyScore (q : List Char) (r : Row) : ℚ :=
  let s_title_exact := norm_sim q r.title
  let s_title_tokens := best_token_sim q r.title
  let s_tags := listMax 0 (r.tags.map (fun t => norm_sim q t))
  let s_body := best_token_sim q (r.body.take 1000)
  let q_tokens := tokenize q
  let title_tokens := tokenize r.title
  let dmin := min_token_distance q_tokens title_tokens
  let title_bonus : ℚ := if dmin ≤ 1 / 4 then 3 / 20 else 0
  3 / 5 * max s_title_exact s_title_tokens + title_bonus + 1 / 4 * s_tags + 3 / 20 * s_body

/-- Descending order on a string key, modelling SQL `ORDER BY key DESC`
(SQLite compares TEXT values byte-wise, i.e. lexicographically). -/
def strDesc {α : Type} (key : α → List Char) (x y : α) : Prop :=
  lexLe (key y) (key x) = true

instance {α : Type} (key : α → List Char) : DecidableRel (strDesc key) :=
  fun x y => decEq (lexLe (key y) (key x)) true

/-- Descending lexicographic order on a rational score with a descending
string tiebreak: models Python's stable `sort(key=(score, str), reverse=True)`
and SQL `ORDER BY score DESC, str DESC`. -/
def pairDesc {α : Type} (k1 : α → ℚ) (k2 : α → List Char) (x y : α) : Prop :=
  k1 y < k1 x ∨ (k1 y = k1 x ∧ lexLe (k2 y) (k2 x) = true)

instance {α : Type} (k1 : α → ℚ) (k2 : α → List Char) : DecidableRel (pairDesc k1 k2) :=
  fun x y => by unfold pairDesc; infer_instance

/-- Rendered particle summary, as produced by `format_particle_row`. -/
structure Summary where
  id : List Char
  title : List Char
  body : List Char
  excerpt : List Char
  tags : List (List Char)
  particle_references : List (List Char)
  date_created : List Char
  date_updated : List Char
deriving DecidableEq, Repr

/-- Source `format_particle_row`: UI projection of a row, with the body
excerpt capped at 200 characters plus an ellipsis. -/
def format_particle_row (r : Row) : Summary :=
  { id := r.id
    title := r.title
    body := r.body
    excerpt := if 200 < r.body.length then r.body.take 200 ++ "...".data else r.body
    tags := r.tags
    particle_references := r.particle_references
    date_created := r.date_created
    date_updated := r.date_updated }

/-- Result envelope shared by listing and the search strategies.  The
`query` field is `none` when the source dict carries no `"query"` key, and
`fuzzy` is the optional `"fuzzy": True` marker of the fuzzy strategy. -/
structure Envelope where
  particles : List Summary
  total : Int
  page : Int
  page_size : Int
  total_pages : Int
  query : Option (List Char) := none
  fuzzy : Bool := false
deriving DecidableEq, Repr

/-- Source `ALLOWED_SORT` whitelist. -/
def ALLOWED_SORT : List (List Char) :=
  ["date_updated".data, "date_created".data, "title".data]

/-- Source `safe_sort_column`: keep a whitelisted column, else default to
`date_updated`. -/
def safe_sort_column (sort_by : List Char) : List Char :=
  if sort_by ∈ ALLOWED_SORT then sort_by else "date_updated".data

/-- Value of the (already whitelisted) sort column in a row; models the SQL
`ORDER BY {safe_sort}` column reference. -/
def sortColValue (col : List Char) (r : Row) : List Char :=
  if col = "date_created".data then r.date_created
  else if col = "title".data then r.title
  else r.date_updated

/-- Source `list_particles`: owner-scoped count, `total_pages`
computation, page clamping into `[1, total_pages]`, offset from the clamped
page, and the SQL-level `ORDER BY {safe_sort} DESC LIMIT ? OFFSET ?`. -/
def list_particles (db : List Row) (user : List Char) (page page_size : Int)
    (sort_by : List Char) : Envelope :=
  let safe_sort := safe_sort_column sort_by
  let owned := db.filter (fun r => r.user_id = user)
  let total : Int := owned.length
  let total_pages := max 1 ((total + page_size - 1).fdiv page_size)
  let page1 := max 1 (min page total_pages)
  let offset := (page1 - 1) * page_size
  let sorted := List.insertionSort (strDesc (sortColValue safe_sort)) owned
  { particles := ((sorted.drop offset.toNat).take page_size.toNat).map format_particle_row
    total := total
    page := page1
    page_size := page_size
    total_pages := total_pages }

/-- Qualification predicate of the `_like_search` WHERE clause:
`title LIKE ? OR body LIKE ? OR tags LIKE ?` against `%q%`. -/
def likeMatch (q : List Char) (r : Row) : Bool :=
  listContains r.title q || listContains r.body q || listContains (tagsJson r.tags) q

/-- Computed `like_rank` column of `_like_search`: 2.0 for a title hit plus
1.0 for a tags hit plus 0.5 for a body hit. -/
def likeRank (q : List Char) (r : Row) : ℚ :=
  (if listContains r.title q then 2 else 0) +
  (if listContains (tagsJson r.tags) q then 1 else 0) +
  (if listContains r.body q then 1 / 2 else 0)

/-- Rows of `_like_search` in their SQL order: qualifying rows sorted by the
`_like_rank_order_clause` order `ORDER BY like_rank DESC, {safe_sort} DESC`. -/
def likeSorted (db : List Row) (user q safe_sort : List Char) : List Row :=
  List.insertionSort (pairDesc (likeRank q) (sortColValue safe_sort))
    (db.filter (fun r => r.user_id = user && likeMatch q r))

/-- Source `_like_search`: the count query over the qualifying rows and the
ranked page slice (`LIMIT ? OFFSET ?`). -/
def like_search (db : List Row) (user q : List Char) (page_size offset : Int)
    (safe_sort : List Char) : Int × List Summary :=
  let total : Int := (db.filter (fun r => r.user_id = user && likeMatch q r)).length
  let sorted := likeSorted db user q safe_sort
  (total, ((sorted.drop offset.toNat).take page_size.toNat).map format_particle_row)

/-- Source `search_particles` on the `_like_search` fallback path (the FTS5
index is an external engine, modelled as unavailable): empty normalized
query delegates to `list_particles` and adds the `query` echo; otherwise the
offset comes from the raw caller page, and the envelope echoes the caller's
page unchanged. -/
def search_particles (db : List Row) (user query : List Char) (page page_size : Int)
    (sort_by : List Char) : Envelope :=
  let q := normalize_query query
  if q = [] then
    { list_particles db user page page_size sort_by with query := some q }
  else
    let safe_sort := safe_sort_column sort_by
    let offset := (page - 1) * page_size
    let res := like_search db user q page_size offset safe_sort
    { particles := res.2
      total := res.1
      page := page
      page_size := page_size
      total_pages := max 1 ((res.1 + page_size - 1).fdiv page_size)
      query := some q }

/-- Candidate window of `fuzzy_search_particles`: the owner's rows,
most-recently-updated first, capped at `candidate_limit`
(`ORDER BY date_updated DESC LIMIT ?`). -/
def fuzzyCandidates (db : List Row) (user : List Char) (candidate_limit : Int) : List Row :=
  (List.insertionSort (strDesc (fun r : Row => r.date_updated))
    (db.filter (fun r => r.user_id = user))).take candidate_limit.toNat

/-- Scored survivors of the fuzzy scoring loop: candidates paired with their
composite score, keeping only scores strictly above the 0.20 relevance
floor. -/
def fuzzyScored (db : List Row) (user q : List Char) (candidate_limit : Int) :
    List (ℚ × Row) :=
  (fuzzyCandidates db user candidate_limit).filterMap
    (fun r => let s := fuzzyScore q r; if s > 1 / 5 then some (s, r) else none)

/-- Survivors sorted by `scored.sort(key=(score, date_updated), reverse=True)`:
descending score, ties broken by recency. -/
def fuzzySorted (db : List Row) (user q : List Char) (candidate_limit : Int) :
    List (ℚ × Row) :=
  List.insertionSort (pairDesc Prod.fst (fun x : ℚ × Row => x.2.date_updated))
    (fuzzyScored db user q candidate_limit)

/-- Source `fuzzy_search_particles`: empty normalized query delegates to
plain listing (returning its envelope unchanged); otherwise score the
candidate window, drop scores at or below 0.20, sort descending by
`(score, date_updated)`, and slice `scored[start:start+page_size]` in memory
with `start = max(0, (page-1)*page_size)`. -/
def fuzzy_search_particles (db : List Row) (user query : List Char)
    (page page_size candidate_limit : Int) : Envelope :=
  let q := normalize_query query
  if q = [] then list_particles db user page page_size "date_updated".data
  else
    let scored := fuzzySorted db user q candidate_limit
    let total : Int := (fuzzyScored db user q candidate_limit).length
    let start := (max 0 ((page - 1) * page_size)).toNat
    { particles := ((scored.drop start).take page_size.toNat).map
        (fun x => format_particle_row x.2)
      total := total
      page := page
      page_size := page_size
      total_pages := max 1 ((total + page_size - 1).fdiv page_size)
      query := some q
      fuzzy := true }

/-- Source `create_particle`: derive tags and references from the body,
build the particle with identical creation and update timestamps, and insert
its row.  The generated UUID and the current timestamp are inputs of the
model. -/
def create_particle (db : List Row) (user title body pid now : List Char) :
    Row × List Row :=
  let tr := extract_tags_and_references body
  let r : Row :=
    { id := pid
      user_id := user
      date_created := now
      date_updated := now
      title := title
      body := body
      tags := tr.1
      particle_references := tr.2 }
  (r, db ++ [r])

/-- Source `get_particle`: fetch the row with the given id for the given
owner. -/
def get_particle (db : List Row) (pid user : List Char) : Option Row :=
  db.find? (fun r => r.id = pid && r.user_id = user)

/-- Source `update_particle`: fetch the particle, overwrite the title if one
is supplied, overwrite the body and recompute tags and references if a body
is supplied, refresh `date_updated`, and write the result back to the
matching row (`WHERE id=? AND user_id=?` leaves id and owner unchanged). -/
def update_particle (db : List Row) (pid user : List Char)
    (title? body? : Option (List Char)) (now : List Char) :
    Option (Row × List Row) :=
  match get_particle db pid user with
  | none => none
  | some p =>
    let p1 := match title? with
      | some t => { p with title := t }
      | none => p
    let p2 := match body? with
      | some b =>
        let tr := extract_tags_and_references b
        { p1 with body := b, tags := tr.1, particle_references := tr.2 }
      | none => p1
    let p3 := { p2 with date_updated := now }
    some (p3, db.map (fun r =>
      if r.id = pid && r.user_id = user then
        { r with title := p3.title, body := p3.body, tags := p3.tags,
                 particle_references := p3.particle_references,
                 date_updated := p3.date_updated }
      else r))

/-- A row's derived metadata agrees with its body: the invariant maintained
by `create_particle` and `update_particle`. -/
def inSync (r : Row) : Prop :=
  (r.tags, r.particle_references) = extract_tags_and_references r.body

instance : DecidablePred inSync := fun r =>
  inferInstanceAs
    (Decidable ((r.tags, r.particle_references) = extract_tags_and_references r.body))


/-- Concrete five-row collection of owner `u` used to instantiate the
pagination statements (every title contains the letter `x`). -/
def sampleRow (n : Nat) : Row :=
  { id := "id".data ++ [Char.ofNat (48 + n)]
    user_id := "u".data
    date_created := "2024-01-01".data
    date_updated := "2024-01-0".data ++ [Char.ofNat (49 + n)]
    title := "x title".data
    body := "body".data
    tags := []
    particle_references := [] }

/-- Five-particle sample collection. -/
def sampleDb : List Row :=
  [sampleRow 0, sampleRow 1, sampleRow 2, sampleRow 3, sampleRow 4]

/-- A single stored row whose tags and references agree with its body, used
to instantiate the mutation statements. -/
def syncRow : Row :=
  { id := "p1".data
    user_id := "u".data
    date_created := "2024-01-01T00:00:00".data
    date_updated := "2024-01-02T00:00:00".data
    title := "note one".data
    body := "hi #a".data
    tags := ["a".data]
    particle_references := [] }

/-- One-particle sample collection for the mutation claims. -/
def syncDb : List Row := [syncRow]

/-- The sample row after a touch update (no title, no body). -/
def syncRowTouch : Row :=
  { id := "p1".data
    user_id := "u".data
    date_created := "2024-01-01T00:00:00".data
    date_updated := "now".data
    title := "note one".data
    body := "hi #a".data
    tags := ["a".data]
    particle_references := [] }

/-- The sample row after a title-only update. -/
def syncRowTitled : Row :=
  { id := "p1".data
    user_id := "u".data
    date_created := "2024-01-01T00:00:00".data
    date_updated := "now".data
    title := "t2".data
    body := "hi #a".data
    tags := ["a".data]
    particle_references := [] }

/-- The sample row after an update that replaces its body. -/
def syncRowUpd : Row :=
  { id := "p1".data
    user_id := "u".data
    date_created := "2024-01-01T00:00:00".data
    date_updated := "now".data
    title := "note one".data
    body := "New #tag3".data
    tags := ["tag3".data]
    particle_references := [] }

theorem levRec_nil_right (xs : List Char) : levRec xs [] = xs.length := by
  cases xs <;> simp [levRec]

theorem levRev_nil_left (y : List Char) : levRev [] y = y.length := by
  simp [levRev, levRec]

theorem levRev_nil_right (x : List Char) : levRev x [] = x.length := by
  simp [levRev, levRec_nil_right]

theorem levRev_snoc_snoc (x y : List Char) (c d : Char) :
    levRev (x ++ [c]) (y ++ [d]) =
      min (min (levRev x (y ++ [d]) + 1) (levRev (x ++ [c]) y + 1))
          (levRev x y + (if c = d then 0 else 1)) := by
  simp only [levRev, List.reverse_append, List.reverse_cons, List.reverse_nil,
    List.nil_append, List.singleton_append]
  rw [levRec]

theorem levRec_self (a : List Char) : levRec a a = 0 := by
  induction a with
  | nil => simp [levRec]
  | cons x xs ih => simp [levRec, ih]

theorem levRec_comm (a : List Char) : ∀ b, levRec a b = levRec b a := by
  induction a with
  | nil => intro b; cases b <;> simp [levRec]
  | cons x xs ihx =>
    intro b
    induction b with
    | nil => simp [levRec]
    | cons y ys ihy =>
      rw [levRec, levRec, ihx (y :: ys), ihx ys, ihy]
      rcases Decidable.em (x = y) with h | h
      · rw [if_pos h, if_pos h.symm]; omega
      · rw [if_neg h, if_neg (fun e => h e.symm)]; omega

theorem levRec_le_max (a : List Char) : ∀ b : List Char, levRec a b ≤ max a.length b.length := by
  induction a with
  | nil => intro b; simp [levRec]
  | cons x xs ih =>
    intro b
    cases b with
    | nil => simp [levRec]
    | cons y ys =>
      have h := ih ys
      rw [levRec]
      refine le_trans (Nat.min_le_right _ _) ?_
      rcases Decidable.em (x = y) with e | e
      · rw [if_pos e]; simp only [List.length_cons]; omega
      · rw [if_neg e]; simp only [List.length_cons]; omega

theorem cons_take_append (p : List Char) (ai : Char) (arest : List Char) (n : Nat) :
    p ++ ai :: arest.take n = (p ++ [ai]) ++ arest.take n := by
  simp

theorem levCells_spec (bj : Char) :
    ∀ (arest : List Char), ∀ (p c : List Char),
      levCells bj arest (levRev p (c ++ [bj])) (levRev p c)
          ((List.range arest.length).map (fun i => levRev (p ++ arest.take (i + 1)) c))
        = (List.range arest.length).map (fun i => levRev (p ++ arest.take (i + 1)) (c ++ [bj])) := by
  intro arest
  induction arest with
  | nil => intro p c; simp [levCells]
  | cons ai arest ih =>
    intro p c
    have hsnoc := levRev_snoc_snoc p c ai bj
    rw [List.length_cons, List.range_succ_eq_map, List.map_cons, List.map_cons,
      List.map_map, List.map_map]
    simp only [Function.comp_def, List.take_succ_cons, List.take_zero,
      cons_take_append]
    rw [levCells]
    rw [← hsnoc]
    have ih2 := ih (p ++ [ai]) c
    simp only [Nat.succ_eq_add_one]
    exact congrArg (List.cons _) ih2

theorem levRow_spec (bj : Char) (a c : List Char) :
    levRow bj (c.length + 1) a
        ((List.range (a.length + 1)).map (fun i => levRev (a.take i) c))
      = (List.range (a.length + 1)).map (fun i => levRev (a.take i) (c ++ [bj])) := by
  rw [List.range_succ_eq_map, List.map_cons, List.map_cons, List.map_map, List.map_map]
  simp only [List.take_zero, levRev_nil_left, Function.comp_def, Nat.succ_eq_add_one,
    List.length_append, List.length_cons, List.length_nil]
  rw [levRow]
  have hc := levCells_spec bj a [] c
  simp only [List.nil_append, levRev_nil_left, List.length_append, List.length_cons,
    List.length_nil] at hc
  exact congrArg (List.cons _) hc

theorem levLoop_spec (a : List Char) :
    ∀ (brest c : List Char),
      levLoop a brest (c.length + 1)
          ((List.range (a.length + 1)).map (fun i => levRev (a.take i) c))
        = (List.range (a.length + 1)).map (fun i => levRev (a.take i) (c ++ brest)) := by
  intro brest
  induction brest with
  | nil => intro c; simp [levLoop]
  | cons bj brest ih =>
    intro c
    rw [levLoop, levRow_spec]
    have h := ih (c ++ [bj])
    simp only [List.length_append, List.length_cons, List.length_nil,
      List.append_assoc, List.singleton_append] at h
    simpa using h

theorem levCore_eq (a b : List Char) : levCore a b = levRev a b := by
  have h1 : ∀ i ∈ List.range (a.length + 1), levRev (a.take i) [] = i := by
    intro i hi
    rw [levRev_nil_right, List.length_take]
    simp only [List.mem_range] at hi
    omega
  have hinit : (List.range (a.length + 1)).map (fun i => levRev (a.take i) []) =
      List.range (a.length + 1) := by
    calc (List.range (a.length + 1)).map (fun i => levRev (a.take i) [])
        = (List.range (a.length + 1)).map id := List.map_congr_left h1
      _ = List.range (a.length + 1) := List.map_id _
  unfold levCore
  rw [← hinit]
  have h2 := levLoop_spec a b []
  simp only [List.length_nil, List.nil_append, Nat.zero_add] at h2
  rw [h2, List.range_succ, List.map_append, List.map_cons, List.map_nil]
  rw [List.getLastD_concat, List.take_length]

theorem levenshtein_eq_levRev (a b : List Char) : levenshtein a b = levRev a b := by
  unfold levenshtein
  split_ifs with h1 h2 h3 h4
  · subst h1; rw [levRev, levRec_self]
  · subst h2; rw [levRev_nil_left]
  · subst h3; rw [levRev_nil_right]
  · rw [levCore_eq, levRev, levRev, levRec_comm]
  · exact levCore_eq a b

theorem levenshtein_self (a : List Char) : levenshtein a a = 0 := by
  simp [levenshtein]

theorem levenshtein_comm (a b : List Char) : levenshtein a b = levenshtein b a := by
  rw [levenshtein_eq_levRev, levenshtein_eq_levRev, levRev, levRev, levRec_comm]

theorem levenshtein_le_max (a b : List Char) :
    levenshtein a b ≤ max a.length b.length := by
  rw [levenshtein_eq_levRev, levRev]
  have h := levRec_le_max a.reverse b.reverse
  simpa using h


theorem lexLe_total (a : List Char) : ∀ b, lexLe a b = true ∨ lexLe b a = true := by
  induction a with
  | nil => intro b; left; simp [lexLe]
  | cons x xs ih =>
    intro b
    cases b with
    | nil => right; simp [lexLe]
    | cons y ys =>
      rcases Decidable.em (x = y) with h | h
      · subst h
        rcases ih ys with h2 | h2
        · left; simpa [lexLe] using h2
        · right; simpa [lexLe] using h2
      · rcases lt_trichotomy x y with hlt | heq | hgt
        · left; rw [lexLe, if_neg h]; exact decide_eq_true hlt
        · exact absurd heq h
        · right; rw [lexLe, if_neg (fun e => h e.symm)]; exact decide_eq_true hgt

theorem lexLe_trans : ∀ a b c : List Char,
    lexLe a b = true → lexLe b c = true → lexLe a c = true := by
  intro a
  induction a with
  | nil => intro b c _ _; simp [lexLe]
  | cons x xs ih =>
    intro b c h1 h2
    cases b with
    | nil => simp [lexLe] at h1
    | cons y ys =>
      cases c with
      | nil => simp [lexLe] at h2
      | cons z zs =>
        rw [lexLe] at h1 h2 ⊢
        rcases Decidable.em (x = y) with hxy | hxy
        · subst hxy
          rw [if_pos rfl] at h1
          rcases Decidable.em (x = z) with hxz | hxz
          · subst hxz
            rw [if_pos rfl] at h2 ⊢
            exact ih ys zs h1 h2
          · rw [if_neg hxz] at h2 ⊢
            exact h2
        · rw [if_neg hxy] at h1
          have hxy' : x < y := of_decide_eq_true h1
          rcases Decidable.em (y = z) with hyz | hyz
          · subst hyz
            rw [if_neg hxy]
            exact decide_eq_true hxy'
          · rw [if_neg hyz] at h2
            have hyz' : y < z := of_decide_eq_true h2
            have hxz' : x < z := lt_trans hxy' hyz'
            rw [if_neg (ne_of_lt hxz')]
            exact decide_eq_true hxz'


theorem strDesc_isTotal {α : Type} (key : α → List Char) : IsTotal α (strDesc key) :=
  ⟨fun a b => lexLe_total (key b) (key a)⟩

theorem strDesc_isTrans {α : Type} (key : α → List Char) : IsTrans α (strDesc key) :=
  ⟨fun _ _ _ h1 h2 => lexLe_trans _ _ _ h2 h1⟩

theorem pairDesc_isTotal {α : Type} (k1 : α → ℚ) (k2 : α → List Char) :
    IsTotal α (pairDesc k1 k2) := by
  refine ⟨fun a b => ?_⟩
  rcases lt_trichotomy (k1 a) (k1 b) with h | h | h
  · right; left; exact h
  · rcases lexLe_total (k2 a) (k2 b) with h2 | h2
    · right; right; exact ⟨h, h2⟩
    · left; right; exact ⟨h.symm, h2⟩
  · left; left; exact h

theorem pairDesc_isTrans {α : Type} (k1 : α → ℚ) (k2 : α → List Char) :
    IsTrans α (pairDesc k1 k2) := by
  refine ⟨fun a b c h1 h2 => ?_⟩
  rcases h1 with h1 | ⟨h1e, h1s⟩
  · rcases h2 with h2 | ⟨h2e, h2s⟩
    · exact Or.inl (lt_trans h2 h1)
    · exact Or.inl (h2e ▸ h1)
  · rcases h2 with h2 | ⟨h2e, h2s⟩
    · exact Or.inl (h1e ▸ h2)
    · exact Or.inr ⟨h2e.trans h1e, lexLe_trans _ _ _ h2s h1s⟩

theorem sorted_insertionSort_strDesc {α : Type} (key : α → List Char) (l : List α) :
    List.Sorted (strDesc key) (List.insertionSort (strDesc key) l) := by
  haveI := strDesc_isTotal key
  haveI := strDesc_isTrans key
  exact List.sorted_insertionSort _ l

theorem sorted_insertionSort_pairDesc {α : Type} (k1 : α → ℚ) (k2 : α → List Char)
    (l : List α) :
    List.Sorted (pairDesc k1 k2) (List.insertionSort (pairDesc k1 k2) l) := by
  haveI := pairDesc_isTotal k1 k2
  haveI := pairDesc_isTrans k1 k2
  exact List.sorted_insertionSort _ l

/-- C7: for all strings `a` and `b`, `norm_distance` and `norm_sim` sum to
1.0 and both lie in `[0, 1]`; moreover, after case-folding and trimming,
`norm_distance` is 0.0 when both inputs are empty, 1.0 when exactly one is
empty, and `levenshtein(a,b) / max(len(a), len(b))` otherwise. -/
theorem C7_norm_distance_sim (a b : List Char) :
    norm_distance a b + norm_sim a b = 1 ∧
    0 ≤ norm_distance a b ∧ norm_distance a b ≤ 1 ∧
    0 ≤ norm_sim a b ∧ norm_sim a b ≤ 1 ∧
    norm_distance a b =
      (if pyLower (pyStrip a) = [] ∧ pyLower (pyStrip b) = [] then 0
       else if pyLower (pyStrip a) = [] ∨ pyLower (pyStrip b) = [] then 1
       else (levenshtein (pyLower (pyStrip a)) (pyLower (pyStrip b)) : ℚ) /
         ((max (pyLower (pyStrip a)).length (pyLower (pyStrip b)).length : ℕ) : ℚ)) := by
  have hb : 0 ≤ norm_distance a b ∧ norm_distance a b ≤ 1 := by
    unfold norm_distance
    dsimp only
    split_ifs with h1 h2
    · norm_num
    · norm_num
    · rw [not_or] at h2
      have hlen : 0 < max (pyLower (pyStrip a)).length (pyLower (pyStrip b)).length := by
        have := List.length_pos.mpr h2.1
        omega
      have hden : (0 : ℚ) < ((max (pyLower (pyStrip a)).length (pyLower (pyStrip b)).length : ℕ) : ℚ) := by
        exact_mod_cast hlen
      constructor
      · positivity
      · rw [div_le_one hden]
        exact_mod_cast levenshtein_le_max _ _
  refine ⟨by unfold norm_sim; ring, hb.1, hb.2, ?_, ?_, rfl⟩
  · unfold norm_sim; linarith [hb.2]
  · unfold norm_sim; linarith [hb.1]

/-- C8: the source `levenshtein` (two-row DP with argument swap and
short-circuits) is reflexively zero and symmetric. -/
theorem C8_levenshtein_refl_symm :
    (∀ a : List Char, levenshtein a a = 0) ∧
    (∀ a b : List Char, levenshtein a b = levenshtein b a) :=
  ⟨levenshtein_self, levenshtein_comm⟩

/-- C2: for every candidate scored by `fuzzy_search_particles` with a
non-empty normalized query `q`, the composite score equals
`0.60 * max(normSim(q,title), bestTokenSim(q,title)) + titleBonus
 + 0.25 * max over tags of normSim(q,tag) (0.0 with no tags)
 + 0.15 * bestTokenSim(q, body truncated to 1000 characters)`,
where `titleBonus` is 0.15 exactly when
`minTokenDistance(tokenize q, tokenize title) ≤ 0.25`. -/
theorem C2_fuzzy_score_formula (q0 : List Char) (r : Row)
    (_h : normalize_query q0 ≠ []) :
    fuzzyScore (normalize_query q0) r =
      3 / 5 * max (norm_sim (normalize_query q0) r.title)
          (best_token_sim (normalize_query q0) r.title)
      + (if min_token_distance (tokenize (normalize_query q0)) (tokenize r.title) ≤ 1 / 4
         then 3 / 20 else 0)
      + 1 / 4 * listMax 0 (r.tags.map (fun t => norm_sim (normalize_query q0) t))
      + 3 / 20 * best_token_sim (normalize_query q0) (r.body.take 1000) := rfl

/-- Witness for C2 at a concrete query and row. -/
theorem C2_fuzzy_score_formula_witness :
    normalize_query "notes".data ≠ [] ∧
    fuzzyScore (normalize_query "notes".data) syncRow =
      3 / 5 * max (norm_sim (normalize_query "notes".data) syncRow.title)
          (best_token_sim (normalize_query "notes".data) syncRow.title)
      + (if min_token_distance (tokenize (normalize_query "notes".data))
            (tokenize syncRow.title) ≤ 1 / 4 then 3 / 20 else 0)
      + 1 / 4 * listMax 0 (syncRow.tags.map (fun t => norm_sim (normalize_query "notes".data) t))
      + 3 / 20 * best_token_sim (normalize_query "notes".data) (syncRow.body.take 1000) :=
  ⟨by decide, C2_fuzzy_score_formula "notes".data syncRow (by decide)⟩

/-- C5: on the `_like_search` fallback, a row qualifies exactly when its
title OR body OR serialized tags contain the normalized query as a
substring; each qualifying row is ranked 2.0 for a title match plus 1.0 for
a tags match plus 0.5 for a body match (3.5 when all three match); and the
returned rows are ordered by this rank descending with the whitelisted sort
column descending as tiebreak, sliced by `LIMIT`/`OFFSET`. -/
theorem C5_like_search_fallback (db : List Row) (u q sort_by : List Char) (ps off : Int) :
    (like_search db u q ps off (safe_sort_column sort_by)).1 =
      ((db.filter (fun r => r.user_id = u && likeMatch q r)).length : Int) ∧
    (∀ r : Row, likeMatch q r = (listContains r.title q || listContains r.body q ||
        listContains (tagsJson r.tags) q)) ∧
    (∀ r : Row, likeRank q r =
        (if listContains r.title q then (2 : ℚ) else 0) +
        (if listContains (tagsJson r.tags) q then (1 : ℚ) else 0) +
        (if listContains r.body q then (1 : ℚ) / 2 else 0)) ∧
    (∀ r : Row, listContains r.title q = true → listContains (tagsJson r.tags) q = true →
        listContains r.body q = true → likeRank q r = 7 / 2) ∧
    List.Sorted (pairDesc (likeRank q) (sortColValue (safe_sort_column sort_by)))
      (likeSorted db u q (safe_sort_column sort_by)) ∧
    (like_search db u q ps off (safe_sort_column sort_by)).2 =
      (((likeSorted db u q (safe_sort_column sort_by)).drop off.toNat).take ps.toNat).map
        format_particle_row := by
  refine ⟨rfl, fun r => rfl, fun r => rfl, ?_, ?_, rfl⟩
  · intro r h1 h2 h3
    unfold likeRank
    rw [if_pos h1, if_pos h2, if_pos h3]
    norm_num
  · exact sorted_insertionSort_pairDesc _ _ _

theorem findHashToks_shape (start cont : Char → Bool) :
    ∀ (l : List Char) (st : HashScan),
      (∀ acc, st = HashScan.inTok acc → ∃ c rest, acc.reverse = c :: rest ∧
        start c = true ∧ ∀ d ∈ rest, cont d = true) →
      ∀ t ∈ findHashToks start cont st l,
        ∃ c rest, t = c :: rest ∧ start c = true ∧ ∀ d ∈ rest, cont d = true := by
  intro l
  induction l with
  | nil =>
    intro st hst t ht
    cases st with
    | scan => simp [findHashToks] at ht
    | afterHash => simp [findHashToks] at ht
    | inTok acc =>
      simp only [findHashToks, List.mem_singleton] at ht
      subst ht
      exact hst acc rfl
  | cons ch rest ih =>
    intro st hst t ht
    cases st with
    | scan =>
      rw [findHashToks] at ht
      by_cases hc : ch = '#'
      · rw [if_pos hc] at ht; exact ih _ (fun _ h => by cases h) t ht
      · rw [if_neg hc] at ht; exact ih _ (fun _ h => by cases h) t ht
    | afterHash =>
      rw [findHashToks] at ht
      by_cases hs : start ch = true
      · rw [if_pos hs] at ht
        refine ih _ ?_ t ht
        intro acc hacc
        injection hacc with he
        subst he
        exact ⟨ch, [], by simp, hs, by simp⟩
      · rw [if_neg hs] at ht
        by_cases hc : ch = '#'
        · rw [if_pos hc] at ht; exact ih _ (fun _ h => by cases h) t ht
        · rw [if_neg hc] at ht; exact ih _ (fun _ h => by cases h) t ht
    | inTok acc =>
      rw [findHashToks] at ht
      obtain ⟨c0, r0, hrev, hs0, hcont⟩ := hst acc rfl
      by_cases hcn : cont ch = true
      · rw [if_pos hcn] at ht
        refine ih _ ?_ t ht
        intro acc2 hacc2
        injection hacc2 with he
        subst he
        refine ⟨c0, r0 ++ [ch], ?_, hs0, ?_⟩
        · rw [List.reverse_cons, hrev]; rfl
        · intro d hd
          rcases List.mem_append.mp hd with h | h
          · exact hcont d h
          · rw [List.mem_singleton] at h; subst h; exact hcn
      · rw [if_neg hcn] at ht
        by_cases hc : ch = '#'
        · rw [if_pos hc] at ht
          rcases List.mem_cons.mp ht with h | h
          · subst h; exact ⟨c0, r0, hrev, hs0, hcont⟩
          · exact ih _ (fun _ h2 => by cases h2) t h
        · rw [if_neg hc] at ht
          rcases List.mem_cons.mp ht with h | h
          · subst h; exact ⟨c0, r0, hrev, hs0, hcont⟩
          · exact ih _ (fun _ h2 => by cases h2) t h

theorem findTags_shape (l : List Char) :
    ∀ t ∈ findTags l, ∃ c rest, t = c :: rest ∧ isAsciiLetter c = true ∧
      ∀ d ∈ rest, isTagChar d = true :=
  findHashToks_shape _ _ l .scan (fun _ h => by cases h)

theorem findNumRefs_digits (l : List Char) :
    ∀ t ∈ findNumRefs l, ∃ c rest, t = c :: rest ∧ isAsciiDigit c = true ∧
      ∀ d ∈ rest, isAsciiDigit d = true :=
  findHashToks_shape _ _ l .scan (fun _ h => by cases h)

theorem findUUIDsAux_shape :
    ∀ (l : List Char) (w : Bool) (n : Nat), ∀ t ∈ findUUIDsAux w n l, uuidShape t = true := by
  intro l
  induction l with
  | nil => intro w n t ht; simp [findUUIDsAux] at ht
  | cons c rest ih =>
    intro w n t ht
    cases n with
    | succ m => rw [findUUIDsAux] at ht; exact ih _ _ t ht
    | zero =>
      rw [findUUIDsAux] at ht
      split at ht
      next h =>
        rcases List.mem_cons.mp ht with h2 | h2
        · subst h2
          simp only [Bool.and_eq_true] at h
          exact h.1.2
        · exact ih _ _ t h2
      next h => exact ih _ _ t ht

theorem findUUIDs_shape (l : List Char) : ∀ t ∈ findUUIDs l, uuidShape t = true :=
  findUUIDsAux_shape l false 0

theorem sortDedup_sorted (l : List (List Char)) : List.Sorted strAsc (sortDedup l) := by
  haveI : IsTotal (List Char) strAsc := ⟨fun a b => lexLe_total a b⟩
  haveI : IsTrans (List Char) strAsc := ⟨fun a b c => lexLe_trans a b c⟩
  exact List.sorted_insertionSort _ _

theorem sortDedup_nodup (l : List (List Char)) : (sortDedup l).Nodup := by
  unfold sortDedup
  exact (List.perm_insertionSort strAsc l.dedup).symm.nodup (List.nodup_dedup l)

theorem mem_sortDedup (l : List (List Char)) (t : List Char) :
    t ∈ sortDedup l ↔ t ∈ l := by
  unfold sortDedup
  rw [List.mem_insertionSort, List.mem_dedup]

/-- C4: `extract_tags_and_references` returns the sorted-ascending,
deduplicated `#`-tags (each beginning with a letter followed by
letters/digits/underscore/hyphen, so digit-leading tokens are never tags),
and as references the sorted deduplicated UUID-shaped matches when at least
one occurs and otherwise the sorted deduplicated `#<digits>` short
references — never a mix of the two. -/
theorem C4_extract_tags_and_references (body : List Char) :
    List.Sorted strAsc (extract_tags_and_references body).1 ∧
    (extract_tags_and_references body).1.Nodup ∧
    (∀ t, t ∈ (extract_tags_and_references body).1 ↔ t ∈ findTags body) ∧
    (∀ t ∈ (extract_tags_and_references body).1, ∃ c rest, t = c :: rest ∧
        isAsciiLetter c = true ∧ ∀ d ∈ rest, isTagChar d = true) ∧
    (findUUIDs body ≠ [] →
        (extract_tags_and_references body).2 = sortDedup (findUUIDs body)) ∧
    (findUUIDs body = [] →
        (extract_tags_and_references body).2 = sortDedup (findNumRefs body)) ∧
    (∀ u ∈ findUUIDs body, uuidShape u = true) ∧
    (∀ nref ∈ findNumRefs body, ∃ c rest, nref = c :: rest ∧ isAsciiDigit c = true ∧
        ∀ d ∈ rest, isAsciiDigit d = true) ∧
    List.Sorted strAsc (extract_tags_and_references body).2 ∧
    (extract_tags_and_references body).2.Nodup := by
  have hfst : (extract_tags_and_references body).1 = sortDedup (findTags body) := rfl
  have hsnd : (extract_tags_and_references body).2 =
      sortDedup (if findUUIDs body = [] then findNumRefs body else findUUIDs body) := rfl
  refine ⟨?_, ?_, ?_, ?_, ?_, ?_, findUUIDs_shape body, findNumRefs_digits body, ?_, ?_⟩
  · rw [hfst]; exact sortDedup_sorted _
  · rw [hfst]; exact sortDedup_nodup _
  · intro t; rw [hfst]; exact mem_sortDedup _ t
  · intro t ht
    rw [hfst] at ht
    exact findTags_shape body t ((mem_sortDedup _ t).mp ht)
  · intro h; rw [hsnd, if_neg h]
  · intro h; rw [hsnd, if_pos h]
  · rw [hsnd]; exact sortDedup_sorted _
  · rw [hsnd]; exact sortDedup_nodup _

/-- C3: with a non-empty normalized query, `fuzzy_search_particles` keeps
exactly the candidates scoring strictly above 0.20, sorts the survivors
descending by `(score, date_updated)` (ties most-recently-updated first),
returns the requested page slice of that sorted list, and reports `total` as
the number of survivors, which is bounded by `candidate_limit`. -/
theorem C3_fuzzy_filter_sort_page (db : List Row) (u q0 : List Char) (page ps cl : Int)
    (hq : normalize_query q0 ≠ []) (hcl : 0 ≤ cl) :
    (fuzzy_search_particles db u q0 page ps cl).total =
      ((fuzzyScored db u (normalize_query q0) cl).length : Int) ∧
    (fuzzy_search_particles db u q0 page ps cl).total ≤ cl ∧
    (∀ r : Row, (fuzzyScore (normalize_query q0) r, r) ∈ fuzzyScored db u (normalize_query q0) cl
        ↔ (r ∈ fuzzyCandidates db u cl ∧ 1 / 5 < fuzzyScore (normalize_query q0) r)) ∧
    (∀ x ∈ fuzzyScored db u (normalize_query q0) cl,
        x.1 = fuzzyScore (normalize_query q0) x.2 ∧ 1 / 5 < x.1) ∧
    List.Sorted (pairDesc Prod.fst (fun x : ℚ × Row => x.2.date_updated))
      (fuzzySorted db u (normalize_query q0) cl) ∧
    (fuzzySorted db u (normalize_query q0) cl).Perm (fuzzyScored db u (normalize_query q0) cl) ∧
    (fuzzy_search_particles db u q0 page ps cl).particles =
      (((fuzzySorted db u (normalize_query q0) cl).drop ((max 0 ((page - 1) * ps)).toNat)).take
        ps.toNat).map (fun x => format_particle_row x.2) := by
  refine ⟨?_, ?_, ?_, ?_, sorted_insertionSort_pairDesc _ _ _,
    List.perm_insertionSort _ _, ?_⟩
  · unfold fuzzy_search_particles; rw [if_neg hq]
  · have h1 : (fuzzyScored db u (normalize_query q0) cl).length ≤
        (fuzzyCandidates db u cl).length := List.length_filterMap_le _ _
    have h2 : (fuzzyCandidates db u cl).length ≤ cl.toNat := by
      unfold fuzzyCandidates
      exact List.length_take_le _ _
    have h3 : ((fuzzyScored db u (normalize_query q0) cl).length : Int) ≤ cl := by
      calc ((fuzzyScored db u (normalize_query q0) cl).length : Int)
          ≤ (cl.toNat : Int) := by exact_mod_cast h1.trans h2
        _ = cl := Int.toNat_of_nonneg hcl
    unfold fuzzy_search_particles; rw [if_neg hq]; exact h3
  · intro r
    constructor
    · intro hmem
      unfold fuzzyScored at hmem
      rcases List.mem_filterMap.mp hmem with ⟨a, ha, hfa⟩
      dsimp only at hfa
      split at hfa
      next hgt =>
        obtain heq := Option.some.inj hfa
        have ha2 : a = r := congrArg Prod.snd heq
        subst ha2
        exact ⟨ha, hgt⟩
      next => exact absurd hfa (by simp)
    · intro hr
      unfold fuzzyScored
      refine List.mem_filterMap.mpr ⟨r, hr.1, ?_⟩
      dsimp only
      rw [if_pos hr.2]
  · intro x hx
    unfold fuzzyScored at hx
    rcases List.mem_filterMap.mp hx with ⟨a, ha, hfa⟩
    dsimp only at hfa
    split at hfa
    next hgt =>
      obtain heq := Option.some.inj hfa
      subst heq
      exact ⟨rfl, hgt⟩
    next => exact absurd hfa (by simp)
  · unfold fuzzy_search_particles; rw [if_neg hq]

/-- Witness for C3 on the five-row sample collection. -/
theorem C3_fuzzy_filter_sort_page_witness :
    normalize_query "x".data ≠ [] ∧ (0 : Int) ≤ 1000 ∧
    ((fuzzy_search_particles sampleDb "u".data "x".data 1 10 1000).total =
      ((fuzzyScored sampleDb "u".data (normalize_query "x".data) 1000).length : Int) ∧
    (fuzzy_search_particles sampleDb "u".data "x".data 1 10 1000).total ≤ 1000 ∧
    (∀ r : Row, (fuzzyScore (normalize_query "x".data) r, r) ∈
          fuzzyScored sampleDb "u".data (normalize_query "x".data) 1000
        ↔ (r ∈ fuzzyCandidates sampleDb "u".data 1000 ∧
            1 / 5 < fuzzyScore (normalize_query "x".data) r)) ∧
    (∀ x ∈ fuzzyScored sampleDb "u".data (normalize_query "x".data) 1000,
        x.1 = fuzzyScore (normalize_query "x".data) x.2 ∧ 1 / 5 < x.1) ∧
    List.Sorted (pairDesc Prod.fst (fun x : ℚ × Row => x.2.date_updated))
      (fuzzySorted sampleDb "u".data (normalize_query "x".data) 1000) ∧
    (fuzzySorted sampleDb "u".data (normalize_query "x".data) 1000).Perm
      (fuzzyScored sampleDb "u".data (normalize_query "x".data) 1000) ∧
    (fuzzy_search_particles sampleDb "u".data "x".data 1 10 1000).particles =
      (((fuzzySorted sampleDb "u".data (normalize_query "x".data) 1000).drop
          ((max 0 ((1 - 1) * 10) : Int).toNat)).take (10 : Int).toNat).map
        (fun x => format_particle_row x.2)) :=
  ⟨by decide, by decide,
    C3_fuzzy_filter_sort_page sampleDb "u".data "x".data 1 10 1000 (by decide) (by decide)⟩

/-- C9: the stored tags and references always equal
`extract_tags_and_references` of the current body: creation derives them
from the initial body, and an update that supplies a new body fully
recomputes and replaces both, so the invariant is preserved by every
mutation (on a collection in which it already holds). -/
theorem C9_tags_in_sync (db : List Row) (u t b pid now pid' u' : List Char)
    (t? b? : Option (List Char)) (now' : List Char) (r' : Row) (db' : List Row)
    (hsync : ∀ x ∈ db, inSync x)
    (hupd : update_particle db pid' u' t? b? now' = some (r', db')) :
    inSync (create_particle db u t b pid now).1 ∧
    (∀ x ∈ (create_particle db u t b pid now).2, inSync x) ∧
    inSync r' ∧
    (∀ x ∈ db', inSync x) ∧
    (∀ bNew, b? = some bNew →
      (r'.tags, r'.particle_references) = extract_tags_and_references bNew) := by
  unfold update_particle at hupd
  cases hget : get_particle db pid' u' with
  | none => rw [hget] at hupd; simp at hupd
  | some p =>
    rw [hget] at hupd
    have hp : p ∈ db := List.mem_of_find?_eq_some hget
    have hpsync := hsync p hp
    dsimp only at hupd
    rw [Option.some.injEq, Prod.mk.injEq] at hupd
    obtain ⟨hr', hdb'⟩ := hupd
    subst hr'
    subst hdb'
    have hcreate : inSync (create_particle db u t b pid now).1 := rfl
    refine ⟨hcreate, ?_, ?_, ?_, ?_⟩
    · intro x hx
      rcases List.mem_append.mp hx with h | h
      · exact hsync x h
      · rw [List.mem_singleton] at h
        subst h
        exact hcreate
    · rcases b? with _ | bNew
      · rcases t? with _ | tNew
        · exact hpsync
        · exact hpsync
      · rfl
    · intro x hx
      rcases List.mem_map.mp hx with ⟨orig, ho, hfo⟩
      by_cases hc : (orig.id = pid' && orig.user_id = u') = true
      · rw [if_pos hc] at hfo
        subst hfo
        rcases b? with _ | bNew
        · rcases t? with _ | tNew
          · exact hpsync
          · exact hpsync
        · rfl
      · rw [if_neg hc] at hfo
        subst hfo
        exact hsync orig ho
    · intro bNew hb
      subst hb
      rcases t? with _ | tNew <;> rfl

/-- Witness for C9: a one-row collection, updating the body of the stored
particle. -/
theorem C9_tags_in_sync_witness :
    (∀ x ∈ syncDb, inSync x) ∧
    update_particle syncDb "p1".data "u".data none (some "New #tag3".data) "now".data =
      some (syncRowUpd, [syncRowUpd]) ∧
    (inSync (create_particle syncDb "u".data "T".data "Body #tag1 #tag2".data
        "p2".data "now".data).1 ∧
    (∀ x ∈ (create_particle syncDb "u".data "T".data "Body #tag1 #tag2".data
        "p2".data "now".data).2, inSync x) ∧
    inSync syncRowUpd ∧
    (∀ x ∈ [syncRowUpd], inSync x) ∧
    (∀ bNew, (some "New #tag3".data : Option (List Char)) = some bNew →
      (syncRowUpd.tags, syncRowUpd.particle_references) =
        extract_tags_and_references bNew)) :=
  ⟨by decide, by decide,
    C9_tags_in_sync syncDb "u".data "T".data "Body #tag1 #tag2".data "p2".data "now".data
      "p1".data "u".data none (some "New #tag3".data) "now".data
      syncRowUpd [syncRowUpd] (by decide) (by decide)⟩

/-- C10: updating an existing particle with neither title nor body leaves
id, owner, title, body, tags, references and `date_created` unchanged while
assigning the fresh `date_updated`; a title-only update likewise leaves
body, tags and references unchanged. -/
theorem C10_update_frame (db : List Row) (pid user now tNew : List Char) (r r1 r2 : Row)
    (db1 db2 : List Row)
    (hget : get_particle db pid user = some r)
    (h1 : update_particle db pid user none none now = some (r1, db1))
    (h2 : update_particle db pid user (some tNew) none now = some (r2, db2)) :
    (r1.id = r.id ∧ r1.user_id = r.user_id ∧ r1.title = r.title ∧ r1.body = r.body ∧
      r1.tags = r.tags ∧ r1.particle_references = r.particle_references ∧
      r1.date_created = r.date_created ∧ r1.date_updated = now) ∧
    (r2.title = tNew ∧ r2.body = r.body ∧ r2.tags = r.tags ∧
      r2.particle_references = r.particle_references ∧ r2.date_created = r.date_created ∧
      r2.id = r.id ∧ r2.user_id = r.user_id ∧ r2.date_updated = now) := by
  unfold update_particle at h1 h2
  rw [hget] at h1 h2
  dsimp only at h1 h2
  rw [Option.some.injEq, Prod.mk.injEq] at h1 h2
  obtain ⟨e1, _⟩ := h1
  obtain ⟨e2, _⟩ := h2
  subst e1
  subst e2
  exact ⟨⟨rfl, rfl, rfl, rfl, rfl, rfl, rfl, rfl⟩, ⟨rfl, rfl, rfl, rfl, rfl, rfl, rfl, rfl⟩⟩

/-- Witness for C10 on the one-row sample collection. -/
theorem C10_update_frame_witness :
    get_particle syncDb "p1".data "u".data = some syncRow ∧
    update_particle syncDb "p1".data "u".data none none "now".data =
      some (syncRowTouch, [syncRowTouch]) ∧
    update_particle syncDb "p1".data "u".data (some "t2".data) none "now".data =
      some (syncRowTitled, [syncRowTitled]) ∧
    ((syncRowTouch.id = syncRow.id ∧ syncRowTouch.user_id = syncRow.user_id ∧
      syncRowTouch.title = syncRow.title ∧ syncRowTouch.body = syncRow.body ∧
      syncRowTouch.tags = syncRow.tags ∧
      syncRowTouch.particle_references = syncRow.particle_references ∧
      syncRowTouch.date_created = syncRow.date_created ∧
      syncRowTouch.date_updated = "now".data) ∧
    (syncRowTitled.title = "t2".data ∧ syncRowTitled.body = syncRow.body ∧
      syncRowTitled.tags = syncRow.tags ∧
      syncRowTitled.particle_references = syncRow.particle_references ∧
      syncRowTitled.date_created = syncRow.date_created ∧
      syncRowTitled.id = syncRow.id ∧ syncRowTitled.user_id = syncRow.user_id ∧
      syncRowTitled.date_updated = "now".data)) :=
  ⟨by decide, by decide, by decide,
    C10_update_frame syncDb "p1".data "u".data "now".data "t2".data syncRow syncRowTouch
      syncRowTitled [syncRowTouch] [syncRowTitled] (by decide) (by decide) (by decide)⟩

/-- C6 (amended): a query that normalizes to empty is not an error — both
`search_particles` and `fuzzy_search_particles` return exactly the plain
owner-scoped listing result; `search_particles` echoes the normalized empty
query in the `query` field, but `fuzzy_search_particles` returns the listing
envelope unchanged, without any `query` echo. -/
theorem C6_empty_query_as_listing (db : List Row) (u q sort_by : List Char)
    (page ps cl : Int) (h : normalize_query q = []) :
    search_particles db u q page ps sort_by =
      { list_particles db u page ps sort_by with query := some [] } ∧
    fuzzy_search_particles db u q page ps cl =
      list_particles db u page ps "date_updated".data := by
  constructor
  · unfold search_particles
    rw [h]
    rfl
  · unfold fuzzy_search_particles
    rw [h]
    rfl

/-- Witness for C6 (amended) on the sample collection. -/
theorem C6_empty_query_as_listing_witness :
    normalize_query "   ".data = [] ∧
    (search_particles sampleDb "u".data "   ".data 2 2 "title".data =
      { list_particles sampleDb "u".data 2 2 "title".data with query := some [] } ∧
    fuzzy_search_particles sampleDb "u".data "   ".data 2 2 1000 =
      list_particles sampleDb "u".data 2 2 "date_updated".data) :=
  ⟨by decide,
    C6_empty_query_as_listing sampleDb "u".data "   ".data "title".data 2 2 1000 (by decide)⟩

/-- Counterexample for C6 as stated: on the empty-query path,
`fuzzy_search_particles` returns the listing envelope with no `query` field
at all (`none`), so its envelope does not echo the normalized empty query. -/
theorem C6_counterexample :
    normalize_query "   ".data = [] ∧
    (fuzzy_search_particles sampleDb "u".data "   ".data 1 10 1000).query = none ∧
    (fuzzy_search_particles sampleDb "u".data "   ".data 1 10 1000).query ≠
      some (normalize_query "   ".data) := by
  exact ⟨by decide, by decide, by decide⟩

theorem total_le_of_total_pages_lt (total ps page : Int) (hps : 1 ≤ ps)
    (h : max 1 ((total + ps - 1).fdiv ps) < page) : total ≤ (page - 1) * ps := by
  have hps0 : 0 ≤ ps := by omega
  have hfd : (total + ps - 1).fdiv ps = (total + ps - 1) / ps := Int.fdiv_eq_ediv _ hps0
  rw [hfd] at h
  have hq := Int.ediv_add_emod (total + ps - 1) ps
  have hr0 : 0 ≤ (total + ps - 1) % ps := Int.emod_nonneg _ (by omega)
  have hr1 : (total + ps - 1) % ps < ps := Int.emod_lt_of_pos _ (by omega)
  have hr2 : (total + ps - 1) % ps ≤ ps - 1 := by omega
  have h2 : (total + ps - 1) / ps ≤ page - 1 := by omega
  have h3 : total ≤ ps * ((total + ps - 1) / ps) := by linarith [hq, hr2]
  calc total ≤ ps * ((total + ps - 1) / ps) := h3
    _ ≤ ps * (page - 1) := mul_le_mul_of_nonneg_left h2 hps0
    _ = (page - 1) * ps := mul_comm _ _

/-- Counterexample for C1 as stated: with five matching rows, page size 10
and requested page 99 (`total_pages = 1`), the exact-search path echoes the
caller's page 99 instead of clamping it down to `total_pages`. -/
theorem C1_counterexample :
    normalize_query "x".data ≠ [] ∧
    (search_particles sampleDb "u".data "x".data 99 10 "date_updated".data).total_pages = 1 ∧
    (search_particles sampleDb "u".data "x".data 99 10 "date_updated".data).page = 99 := by
  exact ⟨by decide, by decide, by decide⟩

/-- C1 (amended): with `page_size ≥ 1` and a caller page beyond the last
listing page, only the listing path clamps: `list_particles` clamps the
returned page into `[1, total_pages]` and computes the row offset from the
clamped page.  The exact-search path (`search_particles` with a query that
does not normalize to empty) does not clamp — like the fuzzy path it echoes
the caller's page and yields an empty items slice past the end. -/
theorem C1_page_clamping (db : List Row) (u q0 sort_by : List Char) (page ps cl : Int)
    (hps : 1 ≤ ps) (hq : normalize_query q0 ≠ [])
    (hpage : (list_particles db u page ps sort_by).total_pages < page) :
    (list_particles db u page ps sort_by).page =
      (list_particles db u page ps sort_by).total_pages ∧
    (list_particles db u page ps sort_by).particles =
      (((List.insertionSort (strDesc (sortColValue (safe_sort_column sort_by)))
          (db.filter (fun r => r.user_id = u))).drop
          ((((list_particles db u page ps sort_by).page - 1) * ps).toNat)).take
        ps.toNat).map format_particle_row ∧
    (search_particles db u q0 page ps sort_by).page = page ∧
    ((search_particles db u q0 page ps sort_by).total_pages < page →
      (search_particles db u q0 page ps sort_by).particles = []) ∧
    (fuzzy_search_particles db u q0 page ps cl).page = page ∧
    ((fuzzy_search_particles db u q0 page ps cl).total_pages < page →
      (fuzzy_search_particles db u q0 page ps cl).particles = []) := by
  refine ⟨?_, rfl, ?_, ?_, ?_, ?_⟩
  · have hT1 : (1 : Int) ≤ (list_particles db u page ps sort_by).total_pages :=
      le_max_left 1 _
    show max 1 (min page (list_particles db u page ps sort_by).total_pages) =
      (list_particles db u page ps sort_by).total_pages
    rw [min_eq_right (le_of_lt hpage), max_eq_right hT1]
  · unfold search_particles
    rw [if_neg hq]
  · intro h4
    unfold search_particles at h4 ⊢
    rw [if_neg hq] at h4 ⊢
    unfold like_search at h4 ⊢
    dsimp only at h4 ⊢
    have hle : ((db.filter (fun r => r.user_id = u &&
        likeMatch (normalize_query q0) r)).length : Int) ≤ (page - 1) * ps :=
      total_le_of_total_pages_lt _ _ _ hps h4
    have hnn : (0 : Int) ≤ (page - 1) * ps :=
      le_trans (Int.natCast_nonneg _) hle
    have hlen : (likeSorted db u (normalize_query q0) (safe_sort_column sort_by)).length =
        (db.filter (fun r => r.user_id = u && likeMatch (normalize_query q0) r)).length :=
      (List.perm_insertionSort _ _).length_eq
    have hdrop : (likeSorted db u (normalize_query q0) (safe_sort_column sort_by)).length ≤
        ((page - 1) * ps).toNat := by
      rw [hlen, Int.le_toNat hnn]
      exact hle
    rw [List.drop_eq_nil_of_le hdrop]
    simp
  · unfold fuzzy_search_particles
    rw [if_neg hq]
  · intro h6
    unfold fuzzy_search_particles at h6 ⊢
    rw [if_neg hq] at h6 ⊢
    dsimp only at h6 ⊢
    have hle : ((fuzzyScored db u (normalize_query q0) cl).length : Int) ≤ (page - 1) * ps :=
      total_le_of_total_pages_lt _ _ _ hps h6
    have hnn : (0 : Int) ≤ (page - 1) * ps :=
      le_trans (Int.natCast_nonneg _) hle
    have hmax : max 0 ((page - 1) * ps) = (page - 1) * ps := max_eq_right hnn
    have hlen : (fuzzySorted db u (normalize_query q0) cl).length =
        (fuzzyScored db u (normalize_query q0) cl).length :=
      (List.perm_insertionSort _ _).length_eq
    have hdrop : (fuzzySorted db u (normalize_query q0) cl).length ≤
        (max 0 ((page - 1) * ps)).toNat := by
      rw [hmax, hlen, Int.le_toNat hnn]
      exact hle
    rw [List.drop_eq_nil_of_le hdrop]
    simp

/-- Witness for C1 (amended) on the five-row sample collection at page 99. -/
theorem C1_page_clamping_witness :
    (1 : Int) ≤ 10 ∧
    normalize_query "x".data ≠ [] ∧
    (list_particles sampleDb "u".data 99 10 "date_updated".data).total_pages < 99 ∧
    ((list_particles sampleDb "u".data 99 10 "date_updated".data).page =
      (list_particles sampleDb "u".data 99 10 "date_updated".data).total_pages ∧
    (list_particles sampleDb "u".data 99 10 "date_updated".data).particles =
      (((List.insertionSort (strDesc (sortColValue (safe_sort_column "date_updated".data)))
          (sampleDb.filter (fun r => r.user_id = "u".data))).drop
          ((((list_particles sampleDb "u".data 99 10 "date_updated".data).page - 1) *
            10).toNat)).take (10 : Int).toNat).map format_particle_row ∧
    (search_particles sampleDb "u".data "x".data 99 10 "date_updated".data).page = 99 ∧
    ((search_particles sampleDb "u".data "x".data 99 10 "date_updated".data).total_pages < 99 →
      (search_particles sampleDb "u".data "x".data 99 10 "date_updated".data).particles = []) ∧
    (fuzzy_search_particles sampleDb "u".data "x".data 99 10 1000).page = 99 ∧
    ((fuzzy_search_particles sampleDb "u".data "x".data 99 10 1000).total_pages < 99 →
      (fuzzy_search_particles sampleDb "u".data "x".data 99 10 1000).particles = [])) :=
  ⟨by decide, by decide, by decide,
    C1_page_clamping sampleDb "u".data "x".data "date_updated".data 99 10 1000
      (by decide) (by decide) (by decide)⟩

end Particle
